import Mathlib

/-!
Shallow embedding of the `match_nodes` pattern-matching/dispatch engine of
`pest_consume` (file `src/pest_consume_macros/src/match_nodes.rs`).

The source is a code generator: for each branch `[a(x), b(xs).., c(y)] => body`
it emits a guarded match arm whose guard checks the child tag sequence and
whose body consumes the children from both ends, converting each with the
per-rule parser function.  The embedding below models the semantics of the
generated code directly:

* `compileLoop` / `compileBranch` mirror the partitioning loop of
  `make_branch` (`singles_before_multiple` / `multiple` /
  `singles_after_multiple`, rejecting a second variable-length item);
* `guardEval` mirrors the generated guard `c1 && c2 && ... && true`,
  evaluated left-to-right with short-circuiting; Rust's panicking index and
  slice operations and its `usize` subtractions are modelled with `Option`
  (`none` = panic/underflow);
* `parseFront` / `parseBack` / `parseAll` mirror the generated extraction:
  `next().unwrap()` for items before the variable-length one,
  `next_back().unwrap()` in reverse declaration order for items after it,
  and `map(..).collect::<Result<Vec<_>,_>>()?` for the variable-length item;
  the first component of the result is the trace of conversion calls made,
  in order, `none` models a panicking `unwrap`;
* `dispatch` mirrors the whole generated `match`: all branches are compiled
  first (the macro aborts on a malformed branch), the tag list is computed
  once, the first branch whose guard holds runs its extraction, and the
  fallback arm produces the "didn't match any pattern" error carrying the
  observed tag list.
-/

namespace PestConsume

/-- A child node: the engine only reads its rule tag and hands the whole node
to the caller-supplied conversion function.  `P` is the opaque payload. -/
structure PNode (R P : Type) where
  tag : R
  payload : P
deriving DecidableEq

/-- One declared pattern position: `single r b` is `r(b)` (exactly one child),
`multiple r b` is `r(b)..` (a variable-length run of children). -/
inductive PatternItem (R B : Type) where
  | single (rule : R) (binder : B)
  | multiple (rule : R) (binder : B)
deriving DecidableEq

/-- The partitioned view of one branch's pattern, as built by the loop at the
top of `make_branch`. -/
structure CompiledPattern (R B : Type) where
  singlesBefore : List (R × B)
  variadic : Option (R × B)
  singlesAfter : List (R × B)
deriving DecidableEq

/-- The only branch-specification error: "multiple variable-length patterns
are not allowed". -/
inductive SpecError where
  | multipleVariadic
deriving DecidableEq

/-- The partitioning loop of `make_branch`: singles go to `singlesBefore`
until a `multiple` item is seen, then to `singlesAfter`; a second `multiple`
item is an error. -/
def compileLoop {R B : Type} :
    List (PatternItem R B) → CompiledPattern R B →
      Except SpecError (CompiledPattern R B)
  | [], acc => .ok acc
  | .single r b :: rest, acc =>
    match acc.variadic with
    | none => compileLoop rest { acc with singlesBefore := acc.singlesBefore ++ [(r, b)] }
    | some _ => compileLoop rest { acc with singlesAfter := acc.singlesAfter ++ [(r, b)] }
  | .multiple r b :: rest, acc =>
    match acc.variadic with
    | none => compileLoop rest { acc with variadic := some (r, b) }
    | some _ => .error .multipleVariadic

/-- Compile one branch's item list. -/
def compileBranch {R B : Type} (items : List (PatternItem R B)) :
    Except SpecError (CompiledPattern R B) :=
  compileLoop items ⟨[], none, []⟩

/-- Checked `usize` subtraction: `none` models the underflow panic. -/
def checkedSub (a b : Nat) : Option Nat :=
  if b ≤ a then some (a - b) else none

/-- Short-circuiting `&&` over possibly-panicking boolean conditions. -/
def andThenO (a : Option Bool) (b : Unit → Option Bool) : Option Bool :=
  match a with
  | none => none
  | some false => some false
  | some true => b ()

/-- The generated conditions `rules[i] == Rule::r_i` for the items before the
variable-length one, in declaration order starting at index `i`; `none`
models an out-of-bounds index panic. -/
def frontChecks {R : Type} [DecidableEq R] :
    List R → List R → Nat → Option Bool
  | [], _, _ => some true
  | r :: rest, tags, i =>
    match tags[i]? with
    | none => none
    | some t => if t = r then frontChecks rest tags (i + 1) else some false

/-- The generated conditions `rules[rules.len()-1 - i] == Rule::r_i` for the
items after the variable-length one, in declaration order (the source
enumerates `singles_after_multiple` forward here). -/
def backChecks {R : Type} [DecidableEq R] :
    List R → List R → Nat → Option Bool
  | [], _, _ => some true
  | r :: rest, tags, i =>
    match checkedSub tags.length 1 with
    | none => none
    | some m =>
      match checkedSub m i with
      | none => none
      | some idx =>
        match tags[idx]? with
        | none => none
        | some t => if t = r then backChecks rest tags (i + 1) else some false

/-- The generated `all_match(&rules[lo..hi])` slice check; `none` models the
panic of an invalid slice range. -/
def sliceAll {R : Type} [DecidableEq R] (r : R) (tags : List R) (lo hi : Nat) :
    Option Bool :=
  if lo ≤ hi ∧ hi ≤ tags.length then
    some (((tags.drop lo).take (hi - lo)).all (fun t => decide (t = r)))
  else none

/-- The whole generated guard `c1 && c2 && ... && true`, left to right:
first `start + end <= rules.len()`, then the checks for the items before the
variable-length one, then those after it, then either the slice check for
the variable-length item or the exact-length check. -/
def guardEval {R B : Type} [DecidableEq R] (cp : CompiledPattern R B)
    (tags : List R) : Option Bool :=
  andThenO
    (some (decide (cp.singlesBefore.length + cp.singlesAfter.length ≤ tags.length)))
    (fun _ =>
      andThenO (frontChecks (cp.singlesBefore.map Prod.fst) tags 0) (fun _ =>
        andThenO (backChecks (cp.singlesAfter.map Prod.fst) tags 0) (fun _ =>
          match cp.variadic with
          | some rb =>
            match checkedSub tags.length cp.singlesAfter.length with
            | none => none
            | some hi => sliceAll rb.1 tags cp.singlesBefore.length hi
          | none =>
            some (decide (cp.singlesBefore.length + cp.singlesAfter.length
              = tags.length)))))

/-- Whether a branch's guard holds on a tag sequence. -/
def matchesB {R B : Type} [DecidableEq R] (cp : CompiledPattern R B)
    (tags : List R) : Bool :=
  decide (guardEval cp tags = some true)

/-- Extraction for the items before the variable-length one: each takes the
next unconsumed child from the front (`next().unwrap()`, `none` = panic) and
converts it (`?` propagates the first error); returns the trace of
conversion calls, the remaining children, and the bindings or first error. -/
def parseFront {R B P E V : Type} (conv : R → PNode R P → Except E V) :
    List (R × B) → List (PNode R P) →
      Option (List (R × PNode R P) × List (PNode R P) × Except E (List (B × V)))
  | [], nodes => some ([], nodes, .ok [])
  | (r, b) :: rest, nodes =>
    match nodes with
    | [] => none
    | n0 :: ns =>
      match conv r n0 with
      | .error e => some ([(r, n0)], ns, .error e)
      | .ok v =>
        match parseFront conv rest ns with
        | none => none
        | some (tr, rem, res) =>
          some ((r, n0) :: tr, rem, Except.map (fun l => (b, v) :: l) res)

/-- Extraction for the items after the variable-length one: the source walks
them in reverse declaration order, each taking the next unconsumed child
from the back (`next_back().unwrap()`); this function is therefore applied
to the reversed `singlesAfter` list. -/
def parseBack {R B P E V : Type} (conv : R → PNode R P → Except E V) :
    List (R × B) → List (PNode R P) →
      Option (List (R × PNode R P) × List (PNode R P) × Except E (List (B × V)))
  | [], nodes => some ([], nodes, .ok [])
  | (r, b) :: rest, nodes =>
    match nodes.getLast? with
    | none => none
    | some nb =>
      match conv r nb with
      | .error e => some ([(r, nb)], nodes.dropLast, .error e)
      | .ok v =>
        match parseBack conv rest nodes.dropLast with
        | none => none
        | some (tr, rem, res) =>
          some ((r, nb) :: tr, rem, Except.map (fun l => (b, v) :: l) res)

/-- Extraction for the variable-length item:
`nodes.map(|i| parser::rule(i)).collect::<Result<Vec<_>, _>>()?` — convert
every remaining child front to back, stopping at the first error. -/
def parseAll {R P E V : Type} (conv : R → PNode R P → Except E V) (r : R) :
    List (PNode R P) → List (R × PNode R P) × Except E (List V)
  | [] => ([], .ok [])
  | n0 :: ns =>
    match conv r n0 with
    | .error e => ([(r, n0)], .error e)
    | .ok v =>
      let rec' := parseAll conv r ns
      ((r, n0) :: rec'.1, Except.map (fun l => v :: l) rec'.2)

/-- An extracted value: one scalar per fixed item, one ordered sequence for
the variable-length item. -/
inductive BValue (V : Type) where
  | scalar (v : V)
  | seq (vs : List V)
deriving DecidableEq

/-- Name lookup in a binding list (first occurrence wins). -/
def lookupName {B V : Type} [DecidableEq B] (k : B) :
    List (B × BValue V) → Option (BValue V)
  | [] => none
  | (k0, v) :: rest => if k0 = k then some v else lookupName k rest

/-- The full extraction of a matched branch, in the order of the generated
code: front items, then back items in reverse declaration order, then the
variable-length item over whatever children remain.  The result is the trace
of conversion calls made (in order) together with either the produced
binding list or the first conversion error; `none` models a panicking
`unwrap`. -/
def extractB {R B P E V : Type} (conv : R → PNode R P → Except E V)
    (cp : CompiledPattern R B) (children : List (PNode R P)) :
    Option (List (R × PNode R P) × Except E (List (B × BValue V))) :=
  match parseFront conv cp.singlesBefore children with
  | none => none
  | some (t1, _, .error e) => some (t1, .error e)
  | some (t1, rem1, .ok bs1) =>
    match parseBack conv cp.singlesAfter.reverse rem1 with
    | none => none
    | some (t2, _, .error e) => some (t1 ++ t2, .error e)
    | some (t2, rem2, .ok bs2) =>
      match cp.variadic with
      | none =>
        some (t1 ++ t2, .ok (bs1.map (fun x => (x.1, BValue.scalar x.2)) ++
          bs2.map (fun x => (x.1, BValue.scalar x.2))))
      | some rb =>
        match parseAll conv rb.1 rem2 with
        | (t3, .error e) => some (t1 ++ t2 ++ t3, .error e)
        | (t3, .ok vs) =>
          some (t1 ++ t2 ++ t3, .ok (bs1.map (fun x => (x.1, BValue.scalar x.2)) ++
            bs2.map (fun x => (x.1, BValue.scalar x.2)) ++ [(rb.2, BValue.seq vs)]))

/-- Compile every branch, stopping at the first specification error — the
macro expands all branches before any generated code can run. -/
def compileAll {R B : Type} :
    List (List (PatternItem R B)) → Except SpecError (List (CompiledPattern R B))
  | [] => .ok []
  | br :: rest =>
    match compileBranch br with
    | .error e => .error e
    | .ok cp =>
      match compileAll rest with
      | .error e => .error e
      | .ok cps => .ok (cp :: cps)

/-- First branch whose guard holds, with its position — the semantics of the
generated `match` trying the guarded arms top to bottom. -/
def selectBranch {R B : Type} [DecidableEq R] :
    List (CompiledPattern R B) → List R → Option (Nat × CompiledPattern R B)
  | [], _ => none
  | cp :: rest, tags =>
    if matchesB cp tags then some (0, cp)
    else (selectBranch rest tags).map (fun x => (x.1 + 1, x.2))

/-- Outcome of a dispatch whose branches all compiled: either the selected
branch's index together with its extraction run (trace of conversion calls
and binding-or-error, `none` for a panic), or the fallback arm's
"didn't match any pattern" error carrying the observed tag list. -/
inductive Outcome (R B P E V : Type) where
  | matched (idx : Nat)
      (run : Option (List (R × PNode R P) × Except E (List (B × BValue V))))
  | noMatch (observedTags : List R)

/-- The whole generated block: compile all branches (a specification error
aborts everything), compute the tag list once from the children, run the
first branch whose guard holds, otherwise produce the no-match error. -/
def dispatch {R B P E V : Type} [DecidableEq R]
    (conv : R → PNode R P → Except E V)
    (branches : List (List (PatternItem R B))) (children : List (PNode R P)) :
    Except SpecError (Outcome R B P E V) :=
  match compileAll branches with
  | .error e => .error e
  | .ok cps =>
    let tags := children.map PNode.tag
    match selectBranch cps tags with
    | some ic => .ok (.matched ic.1 (extractB conv ic.2 children))
    | none => .ok (.noMatch tags)

/-- The planned conversion calls of a branch in the engine's consumption
order: the items before the variable-length one paired with the first
children front to back, the items after it in reverse declaration order
paired with the last children back to front, then the variable-length rule
on each remaining middle child front to back. -/
def planFront {R B P : Type} (items : List (R × B))
    (nodes : List (PNode R P)) : List (R × PNode R P) :=
  List.zipWith (fun it nd => (it.1, nd)) items nodes

/-- Full planned call sequence for a branch (see `planFront`). -/
def callPlan {R B P : Type} (cp : CompiledPattern R B)
    (children : List (PNode R P)) : List (R × PNode R P) :=
  planFront cp.singlesBefore children ++
  planFront cp.singlesAfter.reverse (children.drop cp.singlesBefore.length).reverse ++
  (match cp.variadic with
   | none => []
   | some rb =>
     ((children.drop cp.singlesBefore.length).take
        (children.length - cp.singlesBefore.length - cp.singlesAfter.length)).map
       (fun nd => (rb.1, nd)))

/-- Run planned calls in order, stopping at the first error; returns the
calls actually made and the collected values or first error. -/
def scanCalls {R P E V : Type} (conv : R → PNode R P → Except E V) :
    List (R × PNode R P) → List (R × PNode R P) × Except E (List V)
  | [] => ([], .ok [])
  | c :: rest =>
    match conv c.1 c.2 with
    | .error e => ([c], .error e)
    | .ok v =>
      let rec' := scanCalls conv rest
      (c :: rec'.1, Except.map (fun l => v :: l) rec'.2)

/-- Assemble the binding list from the values of a fully successful call
plan: the first values belong to the items before the variable-length one,
the next block to the reversed list of items after it, the rest to the
variable-length binder. -/
def assembleBinding {R B V : Type} (cp : CompiledPattern R B) (vs : List V) :
    List (B × BValue V) :=
  List.zipWith (fun it v => (it.2, BValue.scalar v)) cp.singlesBefore
    (vs.take cp.singlesBefore.length) ++
  List.zipWith (fun it v => (it.2, BValue.scalar v)) cp.singlesAfter.reverse
    ((vs.drop cp.singlesBefore.length).take cp.singlesAfter.length) ++
  (match cp.variadic with
   | none => []
   | some rb => [(rb.2, BValue.seq (vs.drop
      (cp.singlesBefore.length + cp.singlesAfter.length)))])

/-- Whether a pattern item is the variable-length kind. -/
def isMultiple {R B : Type} : PatternItem R B → Bool
  | .multiple _ _ => true
  | .single _ _ => false

/-- All binder names a branch declares, in declaration order. -/
def bindersOf {R B : Type} (cp : CompiledPattern R B) : List B :=
  cp.singlesBefore.map Prod.snd ++ cp.singlesAfter.map Prod.snd ++
  (match cp.variadic with
   | none => []
   | some rb => [rb.2])

section GuardLemmas

variable {R B : Type} [DecidableEq R]

lemma andThenO_eq_some_true {a : Option Bool} {b : Unit → Option Bool} :
    andThenO a b = some true ↔ a = some true ∧ b () = some true := by
  cases a with
  | none => simp [andThenO]
  | some v => cases v <;> simp [andThenO]

lemma andThenO_isSome {a : Option Bool} {b : Unit → Option Bool}
    (ha : a.isSome = true) (hb : a = some true → (b ()).isSome = true) :
    (andThenO a b).isSome = true := by
  cases a with
  | none => simp at ha
  | some v =>
    cases v
    · simp [andThenO]
    · simpa [andThenO] using hb rfl

lemma frontChecks_isSome :
    ∀ (rules tags : List R) (i : Nat), i + rules.length ≤ tags.length →
      (frontChecks rules tags i).isSome = true
  | [], _, _, _ => rfl
  | r :: rest, tags, i, h => by
    have hi : i < tags.length := by simp only [List.length_cons] at h; omega
    simp only [frontChecks, List.getElem?_eq_getElem hi]
    by_cases ht : tags[i] = r
    · simpa [ht] using frontChecks_isSome rest tags (i + 1)
        (by simp only [List.length_cons] at h; omega)
    · simp [ht]

lemma backChecks_isSome :
    ∀ (rules tags : List R) (i : Nat), i + rules.length ≤ tags.length →
      (backChecks rules tags i).isSome = true
  | [], _, _, _ => rfl
  | r :: rest, tags, i, h => by
    have hn : 1 ≤ tags.length := by simp only [List.length_cons] at h; omega
    have hile : i ≤ tags.length - 1 := by simp only [List.length_cons] at h; omega
    have hidx : tags.length - 1 - i < tags.length := by omega
    simp only [backChecks,
      show checkedSub tags.length 1 = some (tags.length - 1) by simp [checkedSub, hn],
      show checkedSub (tags.length - 1) i = some (tags.length - 1 - i) by
        simp [checkedSub, hile],
      List.getElem?_eq_getElem hidx]
    by_cases ht : tags[tags.length - 1 - i] = r
    · simpa [ht] using backChecks_isSome rest tags (i + 1)
        (by simp only [List.length_cons] at h; omega)
    · simp [ht]

lemma guardEval_isSome (cp : CompiledPattern R B) (tags : List R) :
    (guardEval cp tags).isSome = true := by
  rw [guardEval]
  apply andThenO_isSome (by simp)
  intro h1
  have hlen : cp.singlesBefore.length + cp.singlesAfter.length ≤ tags.length := by
    simpa using h1
  apply andThenO_isSome
    (frontChecks_isSome _ tags 0 (by simp only [List.length_map]; omega))
  intro _
  apply andThenO_isSome
    (backChecks_isSome _ tags 0 (by simp only [List.length_map]; omega))
  intro _
  cases hv : cp.variadic with
  | none => simp
  | some rb =>
    have hs : cp.singlesAfter.length ≤ tags.length := by omega
    simp only [show checkedSub tags.length cp.singlesAfter.length
        = some (tags.length - cp.singlesAfter.length) by simp [checkedSub, hs],
      sliceAll, if_pos (And.intro (by omega : cp.singlesBefore.length
        ≤ tags.length - cp.singlesAfter.length)
        (by omega : tags.length - cp.singlesAfter.length ≤ tags.length))]
    rfl

lemma frontChecks_eq_some_true_iff :
    ∀ (rules tags : List R) (i : Nat), i + rules.length ≤ tags.length →
      (frontChecks rules tags i = some true ↔
        ∀ j (hj : j < rules.length), tags[i + j]? = some rules[j])
  | [], _, _, _ => by simp [frontChecks]
  | r :: rest, tags, i, h => by
    have hi : i < tags.length := by simp only [List.length_cons] at h; omega
    simp only [frontChecks, List.getElem?_eq_getElem hi]
    by_cases ht : tags[i] = r
    · rw [if_pos ht,
        frontChecks_eq_some_true_iff rest tags (i + 1)
          (by simp only [List.length_cons] at h; omega)]
      constructor
      · intro hall j hj
        match j with
        | 0 => simpa [List.getElem?_eq_getElem hi] using ht
        | j + 1 =>
          have := hall j (by simpa using hj)
          simpa [Nat.add_assoc, Nat.add_comm 1 j] using this
      · intro hall j hj
        have := hall (j + 1) (by simpa using hj)
        simpa [Nat.add_assoc, Nat.add_comm 1 j] using this
    · rw [if_neg ht]
      constructor
      · intro hfalse; exact absurd hfalse (by simp)
      · intro hall
        have h0 := hall 0 (by simp)
        rw [Nat.add_zero, List.getElem?_eq_getElem hi] at h0
        simp only [List.getElem_cons_zero] at h0
        exact absurd (Option.some_injective _ h0) ht

lemma backChecks_eq_some_true_iff :
    ∀ (rules tags : List R) (i : Nat), i + rules.length ≤ tags.length →
      (backChecks rules tags i = some true ↔
        ∀ j (hj : j < rules.length),
          tags[tags.length - 1 - (i + j)]? = some rules[j])
  | [], _, _, _ => by simp [backChecks]
  | r :: rest, tags, i, h => by
    have hn : 1 ≤ tags.length := by simp only [List.length_cons] at h; omega
    have hile : i ≤ tags.length - 1 := by simp only [List.length_cons] at h; omega
    have hidx : tags.length - 1 - i < tags.length := by omega
    simp only [backChecks,
      show checkedSub tags.length 1 = some (tags.length - 1) by simp [checkedSub, hn],
      show checkedSub (tags.length - 1) i = some (tags.length - 1 - i) by
        simp [checkedSub, hile],
      List.getElem?_eq_getElem hidx]
    by_cases ht : tags[tags.length - 1 - i] = r
    · rw [if_pos ht,
        backChecks_eq_some_true_iff rest tags (i + 1)
          (by simp only [List.length_cons] at h; omega)]
      constructor
      · intro hall j hj
        match j with
        | 0 => simpa [List.getElem?_eq_getElem hidx] using ht
        | j + 1 =>
          have := hall j (by simpa using hj)
          simpa [Nat.add_assoc, Nat.add_comm 1 j] using this
      · intro hall j hj
        have := hall (j + 1) (by simpa using hj)
        simpa [Nat.add_assoc, Nat.add_comm 1 j] using this
    · rw [if_neg ht]
      constructor
      · intro hfalse; exact absurd hfalse (by simp)
      · intro hall
        have h0 := hall 0 (by simp)
        rw [Nat.add_zero, List.getElem?_eq_getElem hidx] at h0
        simp only [List.getElem_cons_zero] at h0
        exact absurd (Option.some_injective _ h0) ht

lemma sliceAll_eq_some_true_iff (r : R) (tags : List R) (lo hi : Nat)
    (h1 : lo ≤ hi) (h2 : hi ≤ tags.length) :
    sliceAll r tags lo hi = some true ↔
      ∀ j, lo ≤ j → j < hi → tags[j]? = some r := by
  rw [sliceAll, if_pos ⟨h1, h2⟩, Option.some_inj, List.all_eq_true]
  constructor
  · intro hall j hlo hhi
    have hj : j < tags.length := by omega
    have hk : j - lo < hi - lo := by omega
    have hmem : tags[j] ∈ (tags.drop lo).take (hi - lo) := by
      apply List.mem_iff_getElem?.mpr
      refine ⟨j - lo, ?_⟩
      rw [List.getElem?_take_of_lt hk, List.getElem?_drop,
        show lo + (j - lo) = j by omega, List.getElem?_eq_getElem hj]
    have := hall _ hmem
    rw [List.getElem?_eq_getElem hj]
    simpa using this
  · intro hpt x hx
    obtain ⟨k, hk⟩ := List.mem_iff_getElem?.mp hx
    have hklt : k < hi - lo := by
      obtain ⟨hlt, _⟩ := List.getElem?_eq_some_iff.mp hk
      have hlen : ((tags.drop lo).take (hi - lo)).length = hi - lo := by
        simp only [List.length_take, List.length_drop]
        omega
      omega
    rw [List.getElem?_take_of_lt hklt, List.getElem?_drop] at hk
    have := hpt (lo + k) (by omega) (by omega)
    rw [this] at hk
    simp [Option.some_injective _ hk]

lemma guardEval_split (cp : CompiledPattern R B) (tags : List R) :
    guardEval cp tags = some true ↔
      (cp.singlesBefore.length + cp.singlesAfter.length ≤ tags.length) ∧
      frontChecks (cp.singlesBefore.map Prod.fst) tags 0 = some true ∧
      backChecks (cp.singlesAfter.map Prod.fst) tags 0 = some true ∧
      (match cp.variadic with
       | some rb =>
         (match checkedSub tags.length cp.singlesAfter.length with
          | none => none
          | some hi => sliceAll rb.1 tags cp.singlesBefore.length hi)
       | none => some (decide (cp.singlesBefore.length + cp.singlesAfter.length
           = tags.length))) = some true := by
  rw [guardEval]
  simp only [andThenO_eq_some_true]
  simp [and_assoc]

lemma matchesB_variadic_iff (cp : CompiledPattern R B) (tags : List R)
    (r : R) (b : B) (hv : cp.variadic = some (r, b)) :
    matchesB cp tags = true ↔
      (cp.singlesBefore.length + cp.singlesAfter.length ≤ tags.length ∧
       (∀ i (hi : i < cp.singlesBefore.length),
          tags[i]? = some (cp.singlesBefore[i]).1) ∧
       (∀ j (hj : j < cp.singlesAfter.length),
          tags[tags.length - 1 - j]? = some (cp.singlesAfter[j]).1) ∧
       (∀ i, cp.singlesBefore.length ≤ i →
          i < tags.length - cp.singlesAfter.length → tags[i]? = some r)) := by
  rw [matchesB, decide_eq_true_eq, guardEval_split, hv]
  constructor
  · rintro ⟨hlen, hf, hb, htail⟩
    have hs : cp.singlesAfter.length ≤ tags.length := by omega
    rw [show checkedSub tags.length cp.singlesAfter.length
        = some (tags.length - cp.singlesAfter.length) by simp [checkedSub, hs]] at htail
    refine ⟨hlen, ?_, ?_, ?_⟩
    · intro i hi
      have := (frontChecks_eq_some_true_iff _ tags 0
        (by simp only [List.length_map]; omega)).mp hf i (by simpa using hi)
      simpa using this
    · intro j hj
      have := (backChecks_eq_some_true_iff _ tags 0
        (by simp only [List.length_map]; omega)).mp hb j (by simpa using hj)
      simpa using this
    · exact (sliceAll_eq_some_true_iff r tags cp.singlesBefore.length
        (tags.length - cp.singlesAfter.length) (by omega) (by omega)).mp htail
  · rintro ⟨hlen, hf, hb, hmid⟩
    have hs : cp.singlesAfter.length ≤ tags.length := by omega
    refine ⟨hlen, ?_, ?_, ?_⟩
    · rw [frontChecks_eq_some_true_iff _ tags 0 (by simp only [List.length_map]; omega)]
      intro j hj
      have hj' : j < cp.singlesBefore.length := by simpa using hj
      have := hf j hj'
      simpa using this
    · rw [backChecks_eq_some_true_iff _ tags 0 (by simp only [List.length_map]; omega)]
      intro j hj
      have hj' : j < cp.singlesAfter.length := by simpa using hj
      have := hb j hj'
      simpa using this
    · rw [show checkedSub tags.length cp.singlesAfter.length
          = some (tags.length - cp.singlesAfter.length) by simp [checkedSub, hs]]
      exact (sliceAll_eq_some_true_iff r tags cp.singlesBefore.length
        (tags.length - cp.singlesAfter.length) (by omega) (by omega)).mpr hmid

lemma matchesB_fixed_iff (cp : CompiledPattern R B) (tags : List R)
    (hv : cp.variadic = none) :
    matchesB cp tags = true ↔
      (cp.singlesBefore.length + cp.singlesAfter.length = tags.length ∧
       (∀ i (hi : i < cp.singlesBefore.length),
          tags[i]? = some (cp.singlesBefore[i]).1) ∧
       (∀ j (hj : j < cp.singlesAfter.length),
          tags[tags.length - 1 - j]? = some (cp.singlesAfter[j]).1)) := by
  rw [matchesB, decide_eq_true_eq, guardEval_split, hv]
  constructor
  · rintro ⟨hlen, hf, hb, heq⟩
    have heq' : cp.singlesBefore.length + cp.singlesAfter.length = tags.length := by
      simpa using heq
    refine ⟨heq', ?_, ?_⟩
    · intro i hi
      have := (frontChecks_eq_some_true_iff _ tags 0
        (by simp only [List.length_map]; omega)).mp hf i (by simpa using hi)
      simpa using this
    · intro j hj
      have := (backChecks_eq_some_true_iff _ tags 0
        (by simp only [List.length_map]; omega)).mp hb j (by simpa using hj)
      simpa using this
  · rintro ⟨heq, hf, hb⟩
    refine ⟨by omega, ?_, ?_, by simpa using heq⟩
    · rw [frontChecks_eq_some_true_iff _ tags 0 (by simp only [List.length_map]; omega)]
      intro j hj
      have hj' : j < cp.singlesBefore.length := by simpa using hj
      simpa using hf j hj'
    · rw [backChecks_eq_some_true_iff _ tags 0 (by simp only [List.length_map]; omega)]
      intro j hj
      have hj' : j < cp.singlesAfter.length := by simpa using hj
      simpa using hb j hj'

lemma matchesB_length_le (cp : CompiledPattern R B) (tags : List R)
    (hm : matchesB cp tags = true) :
    cp.singlesBefore.length + cp.singlesAfter.length ≤ tags.length := by
  rw [matchesB, decide_eq_true_eq, guardEval_split] at hm
  exact hm.1

lemma matchesB_length_eq (cp : CompiledPattern R B) (tags : List R)
    (hv : cp.variadic = none) (hm : matchesB cp tags = true) :
    cp.singlesBefore.length + cp.singlesAfter.length = tags.length :=
  ((matchesB_fixed_iff cp tags hv).mp hm).1

end GuardLemmas

/-- C1: for a compiled pattern with a variadic item and a tag sequence of
length `n` (with `p` items before the variadic one and `s` after it), the
branch guard holds iff `p + s ≤ n`, the prefix checks `tags[i] =
prefix[i].rule` hold, the suffix boundary checks `tags[n-1-j] =
suffix[j].rule` hold, and every tag in the open interval `[p, n - s)` equals
the variadic item's rule; when `n = p + s` that interval is empty, so the
variadic segment may match zero children and the guard reduces to the
boundary checks. -/
theorem c1_variadic_match_iff {R B : Type} [DecidableEq R]
    (cp : CompiledPattern R B) (tags : List R) (r : R) (b : B)
    (hv : cp.variadic = some (r, b)) :
    (matchesB cp tags = true ↔
      (cp.singlesBefore.length + cp.singlesAfter.length ≤ tags.length ∧
       (∀ i (hi : i < cp.singlesBefore.length),
          tags[i]? = some (cp.singlesBefore[i]).1) ∧
       (∀ j (hj : j < cp.singlesAfter.length),
          tags[tags.length - 1 - j]? = some (cp.singlesAfter[j]).1) ∧
       (∀ i, cp.singlesBefore.length ≤ i →
          i < tags.length - cp.singlesAfter.length → tags[i]? = some r))) ∧
    (tags.length = cp.singlesBefore.length + cp.singlesAfter.length →
      (matchesB cp tags = true ↔
        ((∀ i (hi : i < cp.singlesBefore.length),
            tags[i]? = some (cp.singlesBefore[i]).1) ∧
         (∀ j (hj : j < cp.singlesAfter.length),
            tags[tags.length - 1 - j]? = some (cp.singlesAfter[j]).1)))) := by
  refine ⟨matchesB_variadic_iff cp tags r b hv, ?_⟩
  intro hn
  rw [matchesB_variadic_iff cp tags r b hv]
  constructor
  · rintro ⟨_, hf, hb, _⟩
    exact ⟨hf, hb⟩
  · rintro ⟨hf, hb⟩
    refine ⟨by omega, hf, hb, ?_⟩
    intro i h1 h2
    exact absurd h2 (by omega)

/-- Witness for C1: the spec's scenario pattern `[A(a), B(bs).., C(c)]`
(rules `A = 0, B = 1, C = 2`) matches children tagged `[A, B, B, C]`. -/
theorem c1_variadic_match_iff_witness :
    ((⟨[(0, 10)], some (1, 11), [(2, 12)]⟩ : CompiledPattern Nat Nat).variadic
        = some (1, 11)) ∧
    matchesB (⟨[(0, 10)], some (1, 11), [(2, 12)]⟩ : CompiledPattern Nat Nat)
      [0, 1, 1, 2] = true :=
  ⟨rfl,
    (c1_variadic_match_iff (⟨[(0, 10)], some (1, 11), [(2, 12)]⟩ :
        CompiledPattern Nat Nat) [0, 1, 1, 2] 1 11 rfl).1.mpr
      ⟨by decide, by decide, by decide,
       fun i h1 h2 => by
        have h1' : 1 ≤ i := by simpa using h1
        have h2' : i < 3 := by simpa using h2
        interval_cases i <;> rfl⟩⟩

/-- C2: for a compiled pattern without a variadic item, the branch guard
holds on a tag sequence of length `n` iff `p + s = n` and the positional
checks `tags[i] = prefix[i].rule` and `tags[n-1-j] = suffix[j].rule` hold;
consequently the empty pattern matches exactly the empty tag sequence, and a
two-item fixed pattern never matches three children. -/
theorem c2_fixed_match_iff {R B : Type} [DecidableEq R]
    (cp : CompiledPattern R B) (tags : List R) (hv : cp.variadic = none) :
    (matchesB cp tags = true ↔
      (cp.singlesBefore.length + cp.singlesAfter.length = tags.length ∧
       (∀ i (hi : i < cp.singlesBefore.length),
          tags[i]? = some (cp.singlesBefore[i]).1) ∧
       (∀ j (hj : j < cp.singlesAfter.length),
          tags[tags.length - 1 - j]? = some (cp.singlesAfter[j]).1))) ∧
    (∀ tags' : List R,
      matchesB (⟨[], none, []⟩ : CompiledPattern R B) tags' = true ↔ tags' = []) ∧
    (∀ cp' : CompiledPattern R B, cp'.variadic = none →
      cp'.singlesBefore.length + cp'.singlesAfter.length = 2 →
      ∀ t1 t2 t3 : R, matchesB cp' [t1, t2, t3] = false) := by
  refine ⟨matchesB_fixed_iff cp tags hv, ?_, ?_⟩
  · intro tags'
    rw [matchesB_fixed_iff (⟨[], none, []⟩ : CompiledPattern R B) tags' rfl]
    constructor
    · rintro ⟨hlen, -, -⟩
      exact List.length_eq_zero.mp (by simpa using hlen.symm)
    · rintro rfl
      exact ⟨rfl, by simp, by simp⟩
  · intro cp' hv' hlen t1 t2 t3
    cases hmb : matchesB cp' [t1, t2, t3] with
    | false => rfl
    | true =>
      have := (matchesB_fixed_iff cp' [t1, t2, t3] hv').mp hmb
      exact absurd this.1 (by simp [hlen])

/-- Witness for C2: the fixed pattern `[A(a), B(b)]` matches children
tagged `[A, B]`. -/
theorem c2_fixed_match_iff_witness :
    ((⟨[(0, 10), (1, 11)], none, []⟩ : CompiledPattern Nat Nat).variadic = none) ∧
    matchesB (⟨[(0, 10), (1, 11)], none, []⟩ : CompiledPattern Nat Nat)
      [0, 1] = true :=
  ⟨rfl,
    (c2_fixed_match_iff (⟨[(0, 10), (1, 11)], none, []⟩ : CompiledPattern Nat Nat)
      [0, 1] rfl).1.mpr ⟨by decide, by decide, by decide⟩⟩

section ExtractLemmas

variable {R B P E V : Type}

lemma scanCalls_append_error (conv : R → PNode R P → Except E V)
    {l1 : List (R × PNode R P)} (l2 : List (R × PNode R P)) {e : E}
    (h : (scanCalls conv l1).2 = .error e) :
    scanCalls conv (l1 ++ l2) = ((scanCalls conv l1).1, .error e) := by
  induction l1 with
  | nil => simp [scanCalls] at h
  | cons c rest ih =>
    simp only [List.cons_append, scanCalls] at h ⊢
    cases hc : conv c.1 c.2 with
    | error e0 =>
      simp only [hc] at h ⊢
      exact congrArg _ (congrArg _ (by simpa using h))
    | ok v =>
      simp only [hc] at h ⊢
      cases hrest : (scanCalls conv rest).2 with
      | error e1 =>
        have he : e1 = e := by
          rw [hrest] at h
          simpa [Except.map] using h
        subst he
        simp [ih hrest, Except.map]
      | ok vs => rw [hrest] at h; simp [Except.map] at h

lemma scanCalls_ok_trace (conv : R → PNode R P → Except E V) :
    ∀ {l : List (R × PNode R P)} {vs : List V},
      (scanCalls conv l).2 = .ok vs →
      (scanCalls conv l).1 = l ∧ vs.length = l.length := by
  intro l
  induction l with
  | nil => intro vs h; simp [scanCalls] at h ⊢; simp [← h]
  | cons c rest ih =>
    intro vs h
    simp only [scanCalls] at h ⊢
    cases hc : conv c.1 c.2 with
    | error e0 => simp [hc] at h
    | ok v =>
      simp only [hc] at h ⊢
      cases hrest : (scanCalls conv rest).2 with
      | error e1 => rw [hrest] at h; simp [Except.map] at h
      | ok vs0 =>
        rw [hrest] at h
        obtain ⟨h1, h2⟩ := ih hrest
        have hv : vs = v :: vs0 := by simpa [Except.map] using h.symm
        subst hv
        simp [h1, h2]

lemma scanCalls_append_ok (conv : R → PNode R P → Except E V)
    {l1 : List (R × PNode R P)} (l2 : List (R × PNode R P)) {vs1 : List V}
    (h : (scanCalls conv l1).2 = .ok vs1) :
    scanCalls conv (l1 ++ l2) =
      (l1 ++ (scanCalls conv l2).1,
        Except.map (fun vs2 => vs1 ++ vs2) (scanCalls conv l2).2) := by
  induction l1 generalizing vs1 with
  | nil =>
    have hvs : vs1 = [] := by simpa [scanCalls] using h.symm
    subst hvs
    simp only [List.nil_append]
    cases hres : (scanCalls conv l2).2 <;>
      cases hsc : scanCalls conv l2 <;>
      simp_all [Except.map]
  | cons c rest ih =>
    simp only [List.cons_append, scanCalls] at h ⊢
    cases hc : conv c.1 c.2 with
    | error e0 => simp [hc] at h
    | ok v =>
      simp only [hc] at h ⊢
      cases hrest : (scanCalls conv rest).2 with
      | error e1 => rw [hrest] at h; simp [Except.map] at h
      | ok vs0 =>
        rw [hrest] at h
        have hv : vs1 = v :: vs0 := by simpa [Except.map] using h.symm
        subst hv
        simp only [List.append_eq]
        rw [ih hrest]
        cases hres2 : (scanCalls conv l2).2 <;> simp [Except.map, hres2]

lemma scanCalls_okConv (f : R → PNode R P → V) :
    ∀ (l : List (R × PNode R P)),
      scanCalls (fun r nd => (Except.ok (f r nd) : Except E V)) l
        = (l, .ok (l.map (fun c => f c.1 c.2)))
  | [] => rfl
  | c :: rest => by
    simp only [scanCalls, scanCalls_okConv f rest, Except.map, List.map_cons]

lemma scanCalls_first_error (conv : R → PNode R P → Except E V) :
    ∀ (l : List (R × PNode R P)) (k : Nat) (c : R × PNode R P) (e : E),
      l[k]? = some c → conv c.1 c.2 = .error e →
      (∀ m, m < k → ∀ c', l[m]? = some c' → ∃ v, conv c'.1 c'.2 = .ok v) →
      scanCalls conv l = (l.take (k + 1), .error e)
  | [], k, c, e, hk, _, _ => by simp at hk
  | c0 :: rest, 0, c, e, hk, he, _ => by
    have hc : c0 = c := by simpa using hk
    subst hc
    simp [scanCalls, he]
  | c0 :: rest, k + 1, c, e, hk, he, hok => by
    obtain ⟨v, hv⟩ := hok 0 (by omega) c0 (by simp)
    have htail := scanCalls_first_error conv rest k c e (by simpa using hk) he
      (fun m hm c' hc' => hok (m + 1) (by omega) c' (by simpa using hc'))
    simp [scanCalls, hv, htail, Except.map]

lemma parseAll_eq_scan (conv : R → PNode R P → Except E V) (r : R) :
    ∀ (nodes : List (PNode R P)),
      parseAll conv r nodes = scanCalls conv (nodes.map (fun nd => (r, nd)))
  | [] => rfl
  | n0 :: ns => by
    simp only [parseAll, List.map_cons, scanCalls, parseAll_eq_scan conv r ns]

lemma parseFront_eq (conv : R → PNode R P → Except E V) :
    ∀ (items : List (R × B)) (nodes : List (PNode R P)),
      items.length ≤ nodes.length →
      parseFront conv items nodes =
        some ((scanCalls conv (planFront items nodes)).1,
          nodes.drop (scanCalls conv (planFront items nodes)).1.length,
          Except.map (fun vs => List.zipWith (fun it v => (it.2, v)) items vs)
            (scanCalls conv (planFront items nodes)).2)
  | [], nodes, _ => by simp [parseFront, planFront, scanCalls, Except.map]
  | (r, b) :: rest, nodes, h => by
    cases nodes with
    | nil => simp at h
    | cons n0 ns =>
      have h' : rest.length ≤ ns.length := by simpa using h
      simp only [planFront, List.zipWith_cons_cons, parseFront]
      cases hc : conv r n0 with
      | error e => simp [scanCalls, hc, Except.map]
      | ok v =>
        rw [parseFront_eq conv rest ns h']
        simp only [scanCalls, hc]
        have : (planFront rest ns) = List.zipWith (fun it nd => (it.1, nd)) rest ns :=
          rfl
        rw [← this]
        cases hres : (scanCalls conv (planFront rest ns)).2 <;>
          simp [Except.map, hres, List.drop_succ_cons]

lemma parseBack_eq (conv : R → PNode R P → Except E V) :
    ∀ (items : List (R × B)) (nodes : List (PNode R P)),
      items.length ≤ nodes.length →
      parseBack conv items nodes =
        some ((scanCalls conv (planFront items nodes.reverse)).1,
          nodes.take (nodes.length
            - (scanCalls conv (planFront items nodes.reverse)).1.length),
          Except.map (fun vs => List.zipWith (fun it v => (it.2, v)) items vs)
            (scanCalls conv (planFront items nodes.reverse)).2)
  | [], nodes, _ => by simp [parseBack, planFront, scanCalls, Except.map]
  | (r, b) :: rest, nodes, h => by
    rcases List.eq_nil_or_concat nodes with hnil | ⟨l0, a, hcat⟩
    · subst hnil; simp at h
    · subst hcat
      rw [List.concat_eq_append] at h ⊢
      have h' : rest.length ≤ l0.length := by
        simp only [List.length_cons, List.length_append, List.length_nil] at h
        omega
      rw [List.reverse_concat]
      simp only [planFront, List.zipWith_cons_cons, parseBack,
        List.getLast?_concat, List.dropLast_concat]
      cases hc : conv r a with
      | error e =>
        simp only [scanCalls, hc, List.length_append, List.length_cons,
          List.length_nil, List.length_singleton]
        rw [show l0.length + 1 - 1 = l0.length by omega, List.take_left]
        simp [Except.map]
      | ok v =>
        rw [parseBack_eq conv rest l0 h']
        have hplan : List.zipWith (fun it nd => ((it : R × B).1, nd)) rest l0.reverse
            = planFront rest l0.reverse := rfl
        simp only [scanCalls, hc, hplan]
        cases hres : (scanCalls conv (planFront rest l0.reverse)).2 with
        | error e =>
          simp only [hres, Except.map, List.length_cons, List.length_append,
            List.length_nil]
          rw [show l0.length + 1
                - ((scanCalls conv (planFront rest l0.reverse)).1.length + 1)
              = l0.length - (scanCalls conv (planFront rest l0.reverse)).1.length
              by omega,
            List.take_append_of_le_length (Nat.sub_le _ _)]
        | ok vs =>
          simp only [hres, Except.map, List.zipWith_cons_cons, List.length_cons,
            List.length_append, List.length_nil]
          rw [show l0.length + 1
                - ((scanCalls conv (planFront rest l0.reverse)).1.length + 1)
              = l0.length - (scanCalls conv (planFront rest l0.reverse)).1.length
              by omega,
            List.take_append_of_le_length (Nat.sub_le _ _)]

lemma planFront_length_of_le {items : List (R × B)} {nodes : List (PNode R P)}
    (h : items.length ≤ nodes.length) :
    (planFront items nodes).length = items.length := by
  simp only [planFront, List.length_zipWith]
  omega

lemma extractB_eq_scan [DecidableEq R] (conv : R → PNode R P → Except E V)
    (cp : CompiledPattern R B) (children : List (PNode R P))
    (hm : matchesB cp (children.map PNode.tag) = true) :
    extractB conv cp children =
      some ((scanCalls conv (callPlan cp children)).1,
        Except.map (assembleBinding cp) (scanCalls conv (callPlan cp children)).2) := by
  have hlen : cp.singlesBefore.length + cp.singlesAfter.length ≤ children.length := by
    have := matchesB_length_le cp (children.map PNode.tag) hm
    simpa using this
  have hplan : callPlan cp children =
      planFront cp.singlesBefore children ++
        (planFront cp.singlesAfter.reverse
            (children.drop cp.singlesBefore.length).reverse ++
          (match cp.variadic with
           | none => []
           | some rb =>
             ((children.drop cp.singlesBefore.length).take
                (children.length - cp.singlesBefore.length
                  - cp.singlesAfter.length)).map (fun nd => (rb.1, nd)))) := by
    rw [callPlan, List.append_assoc]
  have hlen1 : (planFront cp.singlesBefore children).length
      = cp.singlesBefore.length :=
    planFront_length_of_le (by omega)
  rw [extractB, parseFront_eq conv cp.singlesBefore children (by omega), hplan]
  cases hres1 : (scanCalls conv (planFront cp.singlesBefore children)).2 with
  | error e =>
    rw [scanCalls_append_error conv _ hres1]
    simp [hres1, Except.map]
  | ok vs1 =>
    obtain ⟨ht1, hvs1⟩ := scanCalls_ok_trace conv hres1
    rw [scanCalls_append_ok conv _ hres1]
    simp only [hres1, Except.map, ht1, hlen1]
    rw [parseBack_eq conv cp.singlesAfter.reverse
      (children.drop cp.singlesBefore.length)
      (by simp only [List.length_reverse, List.length_drop]; omega)]
    cases hres2 : (scanCalls conv (planFront cp.singlesAfter.reverse
        (children.drop cp.singlesBefore.length).reverse)).2 with
    | error e =>
      rw [scanCalls_append_error conv _ hres2]
      simp [hres2, Except.map]
    | ok vs2 =>
      obtain ⟨ht2, hvs2⟩ := scanCalls_ok_trace conv hres2
      rw [scanCalls_append_ok conv _ hres2]
      have hlen2 : (planFront cp.singlesAfter.reverse
          (children.drop cp.singlesBefore.length).reverse).length
          = cp.singlesAfter.length := by
        rw [planFront_length_of_le
          (by simp only [List.length_reverse, List.length_drop]; omega)]
        exact List.length_reverse _
      simp only [hres2, Except.map, ht2, hlen2]
      have hrem2 : (children.drop cp.singlesBefore.length).take
          ((children.drop cp.singlesBefore.length).length
            - cp.singlesAfter.length)
          = (children.drop cp.singlesBefore.length).take
              (children.length - cp.singlesBefore.length
                - cp.singlesAfter.length) := by
        rw [List.length_drop]
      cases hv : cp.variadic with
      | none =>
        have hassemble : assembleBinding cp (vs1 ++ vs2) =
            List.zipWith (fun it v => ((it : R × B).2, BValue.scalar v))
              cp.singlesBefore vs1 ++
            List.zipWith (fun it v => ((it : R × B).2, BValue.scalar v))
              cp.singlesAfter.reverse vs2 := by
          rw [assembleBinding, hv]
          rw [List.take_left' (by omega : vs1.length = cp.singlesBefore.length),
            List.drop_left' (by omega : vs1.length = cp.singlesBefore.length),
            List.take_of_length_le (by omega : vs2.length ≤ cp.singlesAfter.length)]
          simp
        simp [hv, scanCalls, Except.map, hassemble, List.map_zipWith]
      | some rb =>
        simp only [hv, hrem2]
        rw [parseAll_eq_scan conv rb.1]
        cases hsc3 : scanCalls conv
            (((children.drop cp.singlesBefore.length).take
                (children.length - cp.singlesBefore.length
                  - cp.singlesAfter.length)).map (fun nd => (rb.1, nd))) with
        | mk t3 res3 =>
          cases res3 with
          | error e =>
            simp [hsc3, Except.map, List.append_assoc]
          | ok vs3 =>
            have hres3 : (scanCalls conv
                (((children.drop cp.singlesBefore.length).take
                    (children.length - cp.singlesBefore.length
                      - cp.singlesAfter.length)).map (fun nd => (rb.1, nd)))).2
                = .ok vs3 := by rw [hsc3]
            obtain ⟨ht3, hvs3⟩ := scanCalls_ok_trace conv hres3
            rw [hsc3] at ht3
            simp only at ht3
            subst ht3
            have hassemble : assembleBinding cp (vs1 ++ (vs2 ++ vs3)) =
                List.zipWith (fun it v => ((it : R × B).2, BValue.scalar v))
                  cp.singlesBefore vs1 ++
                List.zipWith (fun it v => ((it : R × B).2, BValue.scalar v))
                  cp.singlesAfter.reverse vs2 ++
                [(rb.2, BValue.seq vs3)] := by
              rw [assembleBinding, hv]
              rw [List.take_left' (by omega : vs1.length = cp.singlesBefore.length),
                List.drop_left' (by omega : vs1.length = cp.singlesBefore.length),
                List.take_left' (by omega : vs2.length = cp.singlesAfter.length),
                ← List.append_assoc,
                List.drop_left' (by
                  simp only [List.length_append]
                  omega)]
            simp [hsc3, Except.map, hassemble, List.map_zipWith, List.append_assoc]

end ExtractLemmas

/-- C9: evaluating a branch guard never panics — the length bound
`p + s ≤ n` is checked first and short-circuits the rest, so every index
access and every subtraction performed by the later conditions is in
bounds; `guardEval` models out-of-bounds accesses and underflow as `none`,
and it never returns `none`. -/
theorem c9_guard_eval_safe {R B : Type} [DecidableEq R]
    (cp : CompiledPattern R B) (tags : List R) :
    (guardEval cp tags).isSome = true :=
  guardEval_isSome cp tags

section DispatchLemmas

variable {R B P E V : Type}

lemma lookupName_isSome_iff [DecidableEq B] (k : B) :
    ∀ (l : List (B × BValue V)),
      (lookupName k l).isSome = true ↔ k ∈ l.map Prod.fst
  | [] => by simp [lookupName]
  | (k0, v) :: rest => by
    by_cases hk : k0 = k
    · subst hk
      simp [lookupName]
    · simp only [lookupName, if_neg hk, List.map_cons, List.mem_cons]
      rw [lookupName_isSome_iff k rest]
      constructor
      · exact Or.inr
      · rintro (h | h)
        · exact absurd h.symm hk
        · exact h

lemma keys_zipWith_scalar [DecidableEq B] :
    ∀ (items : List (R × B)) (l : List V), items.length = l.length →
      (List.zipWith (fun it v => ((it : R × B).2, BValue.scalar v)) items l).map
          Prod.fst
        = items.map Prod.snd
  | [], [], _ => rfl
  | [], _ :: _, h => by simp at h
  | _ :: _, [], h => by simp at h
  | it :: items, v :: l, h => by
    simp only [List.zipWith_cons_cons, List.map_cons, List.cons.injEq]
    exact ⟨trivial, keys_zipWith_scalar items l (by simpa using h)⟩

lemma assembleBinding_keys [DecidableEq B] (cp : CompiledPattern R B)
    (vs : List V)
    (h : cp.singlesBefore.length + cp.singlesAfter.length ≤ vs.length) :
    (assembleBinding cp vs).map Prod.fst =
      cp.singlesBefore.map Prod.snd ++ cp.singlesAfter.reverse.map Prod.snd ++
      (match cp.variadic with
       | none => []
       | some rb => [rb.2]) := by
  rw [assembleBinding]
  have h1 : cp.singlesBefore.length = (vs.take cp.singlesBefore.length).length := by
    simp only [List.length_take]
    omega
  have h2 : cp.singlesAfter.reverse.length
      = ((vs.drop cp.singlesBefore.length).take cp.singlesAfter.length).length := by
    simp only [List.length_reverse, List.length_take, List.length_drop]
    omega
  simp only [List.map_append, keys_zipWith_scalar _ _ h1, keys_zipWith_scalar _ _ h2]
  cases cp.variadic <;> simp

lemma selectBranch_first [DecidableEq R] (tags : List R) :
    ∀ (l1 : List (CompiledPattern R B)) (cp : CompiledPattern R B)
      (rest : List (CompiledPattern R B)),
      (∀ c ∈ l1, matchesB c tags = false) → matchesB cp tags = true →
      selectBranch (l1 ++ cp :: rest) tags = some (l1.length, cp)
  | [], cp, rest, _, hm => by simp [selectBranch, hm]
  | c0 :: l1, cp, rest, hnone, hm => by
    have h0 : matchesB c0 tags = false := hnone c0 (by simp)
    have hrec := selectBranch_first tags l1 cp rest
      (fun c hc => hnone c (by simp [hc])) hm
    simp [selectBranch, h0, hrec]

lemma selectBranch_eq_none_iff [DecidableEq R] (tags : List R) :
    ∀ (cps : List (CompiledPattern R B)),
      selectBranch cps tags = none ↔ ∀ cp ∈ cps, matchesB cp tags = false
  | [] => by simp [selectBranch]
  | c0 :: cps => by
    have hrec := selectBranch_eq_none_iff tags cps
    cases h0 : matchesB c0 tags with
    | true =>
      constructor
      · intro hnone
        exact absurd hnone (by simp [selectBranch, h0])
      · intro hall
        exact absurd (hall c0 (by simp)) (by simp [h0])
    | false =>
      have hmap : selectBranch (c0 :: cps) tags
          = (selectBranch cps tags).map (fun x => (x.1 + 1, x.2)) := by
        simp [selectBranch, h0]
      constructor
      · intro hnone c hc
        rcases List.mem_cons.mp hc with rfl | hc'
        · exact h0
        · refine hrec.mp ?_ c hc'
          by_contra hne
          obtain ⟨x, hx⟩ := Option.ne_none_iff_exists'.mp hne
          rw [hmap, hx] at hnone
          simp at hnone
      · intro hall
        rw [hmap, hrec.mpr (fun c hc => hall c (List.mem_cons_of_mem _ hc))]
        rfl

lemma compileLoop_error_of_count :
    ∀ (items : List (PatternItem R B)) (acc : CompiledPattern R B),
      ((acc.variadic = none ∧ 2 ≤ (items.filter isMultiple).length) ∨
        (acc.variadic ≠ none ∧ 1 ≤ (items.filter isMultiple).length)) →
      compileLoop items acc = .error .multipleVariadic
  | [], acc, h => by
    rcases h with ⟨-, h2⟩ | ⟨-, h2⟩ <;> simp at h2
  | .single r b :: rest, acc, h => by
    have hcount : ((PatternItem.single r b :: rest).filter isMultiple).length
        = (rest.filter isMultiple).length := by
      simp [List.filter_cons, isMultiple]
    rw [hcount] at h
    cases hv : acc.variadic with
    | none =>
      rw [compileLoop, hv]
      exact compileLoop_error_of_count rest _ (by
        rcases h with ⟨-, h2⟩ | ⟨hne, -⟩
        · exact Or.inl ⟨rfl, h2⟩
        · exact absurd hv hne)
    | some rb =>
      rw [compileLoop, hv]
      exact compileLoop_error_of_count rest _ (by
        rcases h with ⟨hnone, -⟩ | ⟨-, h1⟩
        · exact absurd hnone (by simp [hv])
        · exact Or.inr ⟨by simp, h1⟩)
  | .multiple r b :: rest, acc, h => by
    have hcount : ((PatternItem.multiple r b :: rest).filter isMultiple).length
        = (rest.filter isMultiple).length + 1 := by
      simp [List.filter_cons, isMultiple]
    rw [hcount] at h
    cases hv : acc.variadic with
    | none =>
      rw [compileLoop, hv]
      exact compileLoop_error_of_count rest _ (by
        rcases h with ⟨-, h2⟩ | ⟨hne, -⟩
        · exact Or.inr ⟨by simp, by omega⟩
        · exact absurd hv hne)
    | some rb0 =>
      rw [compileLoop, hv]

lemma compileBranch_error_of_two (items : List (PatternItem R B))
    (h : 2 ≤ (items.filter isMultiple).length) :
    compileBranch items = .error .multipleVariadic :=
  compileLoop_error_of_count items _ (Or.inl ⟨rfl, h⟩)

lemma compileAll_error_of_mem :
    ∀ (branches : List (List (PatternItem R B))),
      (∃ br ∈ branches, compileBranch br = .error .multipleVariadic) →
      compileAll branches = .error .multipleVariadic
  | [], h => by simp at h
  | br0 :: rest, h => by
    cases hcb : compileBranch br0 with
    | error e =>
      cases e
      rw [compileAll, hcb]
    | ok cp =>
      obtain ⟨br, hbr, herr⟩ := h
      rcases List.mem_cons.mp hbr with rfl | hmem
      · exact absurd herr (by simp [hcb])
      · rw [compileAll, hcb,
          compileAll_error_of_mem rest ⟨br, hmem, herr⟩]

end DispatchLemmas

/-- C10: when a branch's guard holds on a node's children, extraction never
hits a failing `unwrap` — `extractB` (where `none` models an `unwrap` panic)
always produces a value, whatever the conversion functions do — and for a
branch without a variadic item, once the front items and the back items have
been removed and converted successfully, the child sequence is exactly
exhausted. -/
theorem c10_extract_unwraps_safe {R B P E V : Type} [DecidableEq R]
    (conv : R → PNode R P → Except E V) (cp : CompiledPattern R B)
    (children : List (PNode R P))
    (hm : matchesB cp (children.map PNode.tag) = true) :
    (extractB conv cp children).isSome = true ∧
    (cp.variadic = none →
      ∀ t1 rem1 bs1, parseFront conv cp.singlesBefore children
          = some (t1, rem1, Except.ok bs1) →
        ∀ t2 rem2 bs2, parseBack conv cp.singlesAfter.reverse rem1
            = some (t2, rem2, Except.ok bs2) →
          rem2 = []) := by
  have hlen : cp.singlesBefore.length + cp.singlesAfter.length
      ≤ children.length := by
    have := matchesB_length_le cp (children.map PNode.tag) hm
    simpa using this
  constructor
  · rw [extractB_eq_scan conv cp children hm]
    rfl
  · intro hv t1 rem1 bs1 hpf t2 rem2 bs2 hpb
    have hexact : cp.singlesBefore.length + cp.singlesAfter.length
        = children.length := by
      have := matchesB_length_eq cp (children.map PNode.tag) hv hm
      simpa using this
    rw [parseFront_eq conv cp.singlesBefore children (by omega)] at hpf
    simp only [Option.some.injEq, Prod.mk.injEq] at hpf
    obtain ⟨ht1eq, hrem1, hres1eq⟩ := hpf
    cases hres1 : (scanCalls conv (planFront cp.singlesBefore children)).2 with
    | error e =>
      rw [hres1] at hres1eq
      simp [Except.map] at hres1eq
    | ok vs1 =>
      obtain ⟨ht1, hvs1⟩ := scanCalls_ok_trace conv hres1
      have hplen1 : (planFront cp.singlesBefore children).length
          = cp.singlesBefore.length := planFront_length_of_le (by omega)
      have hrem1' : rem1 = children.drop cp.singlesBefore.length := by
        rw [← hrem1, ht1, hplen1]
      subst hrem1'
      rw [parseBack_eq conv cp.singlesAfter.reverse _
        (by simp only [List.length_reverse, List.length_drop]; omega)] at hpb
      simp only [Option.some.injEq, Prod.mk.injEq] at hpb
      obtain ⟨ht2eq, hrem2, hres2eq⟩ := hpb
      cases hres2 : (scanCalls conv (planFront cp.singlesAfter.reverse
          (children.drop cp.singlesBefore.length).reverse)).2 with
      | error e =>
        rw [hres2] at hres2eq
        simp [Except.map] at hres2eq
      | ok vs2 =>
        obtain ⟨ht2, hvs2⟩ := scanCalls_ok_trace conv hres2
        have hplen2 : (planFront cp.singlesAfter.reverse
            (children.drop cp.singlesBefore.length).reverse).length
            = cp.singlesAfter.length := by
          rw [planFront_length_of_le
            (by simp only [List.length_reverse, List.length_drop]; omega)]
          exact List.length_reverse _
        rw [← hrem2, ht2, hplen2, List.length_drop,
          show children.length - cp.singlesBefore.length
            - cp.singlesAfter.length = 0 by omega]
        exact List.take_zero _

/-- C4: for a matched branch, with conversion functions that always succeed,
the conversion calls happen exactly in the order described by `callPlan` —
one front child for each item before the variadic one in declaration order,
then one back child for each item after it walking the declared order in
reverse, then the remaining middle children front to back — and the
produced binding list is addressable under every declared binder name. -/
theorem c4_consumption_order_and_binders {R B P E V : Type} [DecidableEq R]
    [DecidableEq B]
    (f : R → PNode R P → V) (cp : CompiledPattern R B)
    (children : List (PNode R P))
    (hm : matchesB cp (children.map PNode.tag) = true) :
    extractB (fun r nd => (Except.ok (f r nd) : Except E V)) cp children =
      some (callPlan cp children,
        Except.ok (assembleBinding cp
          ((callPlan cp children).map (fun c => f c.1 c.2)))) ∧
    (∀ bn ∈ bindersOf cp, ∀ tr bnd,
      extractB (fun r nd => (Except.ok (f r nd) : Except E V)) cp children
          = some (tr, Except.ok bnd) →
      (lookupName bn bnd).isSome = true) := by
  have hlen : cp.singlesBefore.length + cp.singlesAfter.length
      ≤ children.length := by
    have := matchesB_length_le cp (children.map PNode.tag) hm
    simpa using this
  have hmain : extractB (fun r nd => (Except.ok (f r nd) : Except E V)) cp
      children =
      some (callPlan cp children,
        Except.ok (assembleBinding cp
          ((callPlan cp children).map (fun c => f c.1 c.2)))) := by
    rw [extractB_eq_scan _ cp children hm, scanCalls_okConv f]
    simp [Except.map]
  refine ⟨hmain, ?_⟩
  intro bn hbn tr bnd hext
  rw [hmain] at hext
  simp only [Option.some.injEq, Prod.mk.injEq, Except.ok.injEq] at hext
  obtain ⟨-, hbnd⟩ := hext
  subst hbnd
  have hplen1 : (planFront cp.singlesBefore children).length
      = cp.singlesBefore.length := planFront_length_of_le (by omega)
  have hplen2 : (planFront cp.singlesAfter.reverse
      (children.drop cp.singlesBefore.length).reverse).length
      = cp.singlesAfter.length := by
    rw [planFront_length_of_le
      (by simp only [List.length_reverse, List.length_drop]; omega)]
    exact List.length_reverse _
  have hplanlen : cp.singlesBefore.length + cp.singlesAfter.length
      ≤ ((callPlan cp children).map
          (fun c => f (c : R × PNode R P).1 c.2)).length := by
    rw [List.length_map, callPlan]
    simp only [List.length_append, hplen1, hplen2]
    omega
  rw [lookupName_isSome_iff, assembleBinding_keys cp _ hplanlen]
  simp only [bindersOf, List.mem_append] at hbn
  rcases hbn with (h | h) | h
  · exact List.mem_append.mpr (Or.inl (List.mem_append.mpr (Or.inl h)))
  · refine List.mem_append.mpr (Or.inl (List.mem_append.mpr (Or.inr ?_)))
    rw [List.map_reverse]
    exact List.mem_reverse.mpr h
  · exact List.mem_append.mpr (Or.inr h)

/-- C5: dispatch is first-match: if the branch list compiles to
`l1 ++ cp1 :: l2 ++ cp2 :: l3` where `cp1` comes before `cp2`, both guards
hold on the children, and no branch before `cp1` matches, then dispatch runs
`cp1`'s extraction as the outcome; moreover branch selection is entirely
independent of everything after `cp1`, so `cp2`'s guard and extraction are
never evaluated. -/
theorem c5_first_match_wins {R B P E V : Type} [DecidableEq R]
    (conv : R → PNode R P → Except E V)
    (branches : List (List (PatternItem R B))) (children : List (PNode R P))
    (l1 l2 l3 : List (CompiledPattern R B)) (cp1 cp2 : CompiledPattern R B)
    (hc : compileAll branches = .ok (l1 ++ cp1 :: (l2 ++ cp2 :: l3)))
    (h1 : matchesB cp1 (children.map PNode.tag) = true)
    (h2 : matchesB cp2 (children.map PNode.tag) = true)
    (hearly : ∀ c ∈ l1, matchesB c (children.map PNode.tag) = false) :
    dispatch conv branches children
      = .ok (.matched l1.length (extractB conv cp1 children)) ∧
    ∀ rest : List (CompiledPattern R B),
      selectBranch (l1 ++ cp1 :: rest) (children.map PNode.tag)
        = some (l1.length, cp1) := by
  have hsel := selectBranch_first (children.map PNode.tag) l1 cp1
    (l2 ++ cp2 :: l3) hearly h1
  refine ⟨?_, fun rest => selectBranch_first _ l1 cp1 rest hearly h1⟩
  simp [dispatch, hc, hsel]

/-- Witness for C5: two branches `[A(10)]` and `[A(11)..]` both match one
child tagged `A`; dispatch selects the first. -/
theorem c5_first_match_wins_witness :
    (compileAll ([[PatternItem.single 0 10], [PatternItem.multiple 0 11]] :
        List (List (PatternItem Nat Nat)))
      = .ok ([] ++ (⟨[(0, 10)], none, []⟩ : CompiledPattern Nat Nat) ::
          ([] ++ (⟨[], some (0, 11), []⟩ : CompiledPattern Nat Nat) :: []))) ∧
    matchesB (⟨[(0, 10)], none, []⟩ : CompiledPattern Nat Nat)
      ([(⟨0, 1⟩ : PNode Nat Nat)].map PNode.tag) = true ∧
    matchesB (⟨[], some (0, 11), []⟩ : CompiledPattern Nat Nat)
      ([(⟨0, 1⟩ : PNode Nat Nat)].map PNode.tag) = true ∧
    dispatch (fun r nd => (Except.ok (r + nd.payload) : Except Nat Nat))
        [[PatternItem.single 0 10], [PatternItem.multiple 0 11]]
        [(⟨0, 1⟩ : PNode Nat Nat)]
      = .ok (.matched 0
          (extractB (fun r nd => (Except.ok (r + nd.payload) : Except Nat Nat))
            (⟨[(0, 10)], none, []⟩ : CompiledPattern Nat Nat)
            [(⟨0, 1⟩ : PNode Nat Nat)])) :=
  ⟨rfl, by decide, by decide,
    (c5_first_match_wins (fun r nd => (Except.ok (r + nd.payload) : Except Nat Nat))
      [[PatternItem.single 0 10], [PatternItem.multiple 0 11]]
      [(⟨0, 1⟩ : PNode Nat Nat)] [] [] []
      (⟨[(0, 10)], none, []⟩ : CompiledPattern Nat Nat)
      (⟨[], some (0, 11), []⟩ : CompiledPattern Nat Nat)
      rfl (by decide) (by decide) (by intro c hc; simp at hc)).1⟩

/-- C6: dispatch fails fast on conversion errors: if, for the selected
branch, the call at position `k` of the consumption-order plan fails while
all earlier calls succeed, then the calls actually made are exactly the
first `k + 1` planned ones, no binding is produced, no later branch is
tried, and the dispatch outcome carries exactly that error. -/
theorem c6_fail_fast {R B P E V : Type} [DecidableEq R]
    (conv : R → PNode R P → Except E V)
    (branches : List (List (PatternItem R B))) (children : List (PNode R P))
    (l1 l2 : List (CompiledPattern R B)) (cp : CompiledPattern R B)
    (hc : compileAll branches = .ok (l1 ++ cp :: l2))
    (hm : matchesB cp (children.map PNode.tag) = true)
    (hearly : ∀ c ∈ l1, matchesB c (children.map PNode.tag) = false)
    (k : Nat) (rk : R) (nk : PNode R P) (e : E)
    (hk : (callPlan cp children)[k]? = some (rk, nk))
    (he : conv rk nk = .error e)
    (hok : ∀ m, m < k → ∀ c, (callPlan cp children)[m]? = some c →
      ∃ v, conv c.1 c.2 = .ok v) :
    extractB conv cp children
      = some ((callPlan cp children).take (k + 1), .error e) ∧
    dispatch conv branches children
      = .ok (.matched l1.length
          (some ((callPlan cp children).take (k + 1), .error e))) := by
  have hscan := scanCalls_first_error conv (callPlan cp children) k (rk, nk)
    e hk he hok
  have hext : extractB conv cp children
      = some ((callPlan cp children).take (k + 1), .error e) := by
    rw [extractB_eq_scan conv cp children hm, hscan]
    simp [Except.map]
  refine ⟨hext, ?_⟩
  have hsel := selectBranch_first (children.map PNode.tag) l1 cp l2 hearly hm
  simp [dispatch, hc, hsel, hext]

/-- C7: a branch declaring two or more variable-length items makes the whole
dispatch fail with the multiple-variadic specification error, regardless of
the children and even when an earlier branch would have matched. -/
theorem c7_multiple_variadic_rejected {R B P E V : Type} [DecidableEq R]
    (conv : R → PNode R P → Except E V)
    (branches : List (List (PatternItem R B))) (children : List (PNode R P))
    (br : List (PatternItem R B)) (hbr : br ∈ branches)
    (h2 : 2 ≤ (br.filter isMultiple).length) :
    dispatch conv branches children = .error .multipleVariadic := by
  rw [dispatch, compileAll_error_of_mem branches
    ⟨br, hbr, compileBranch_error_of_two br h2⟩]

/-- Witness for C7: the spec's scenario 6 — a second branch `[A(1).., B(2)..]`
poisons the dispatch even though the first branch `[A(0)]` matches the lone
`A`-tagged child. -/
theorem c7_multiple_variadic_rejected_witness :
    ([PatternItem.multiple 1 1, PatternItem.multiple 2 2] ∈
      ([[PatternItem.single 0 0],
        [PatternItem.multiple 1 1, PatternItem.multiple 2 2]] :
        List (List (PatternItem Nat Nat)))) ∧
    2 ≤ (([PatternItem.multiple 1 1, PatternItem.multiple 2 2] :
        List (PatternItem Nat Nat)).filter isMultiple).length ∧
    dispatch (fun r nd => (Except.ok (r + nd.payload) : Except Nat Nat))
        [[PatternItem.single 0 0],
         [PatternItem.multiple 1 1, PatternItem.multiple 2 2]]
        [(⟨0, 5⟩ : PNode Nat Nat)]
      = .error .multipleVariadic :=
  ⟨by decide, by decide,
    c7_multiple_variadic_rejected
      (fun r nd => (Except.ok (r + nd.payload) : Except Nat Nat))
      [[PatternItem.single 0 0],
       [PatternItem.multiple 1 1, PatternItem.multiple 2 2]]
      [(⟨0, 5⟩ : PNode Nat Nat)]
      [PatternItem.multiple 1 1, PatternItem.multiple 2 2]
      (by decide) (by decide)⟩

/-- C8: when all branches compile, dispatch produces the no-match outcome —
carrying the full observed tag sequence, one tag per child in order — iff no
branch's guard holds on that tag sequence; in that case the outcome is the
same for every conversion registry, i.e. no conversion function is ever
invoked. -/
theorem c8_no_match_iff {R B P E V : Type} [DecidableEq R]
    (conv : R → PNode R P → Except E V)
    (branches : List (List (PatternItem R B))) (children : List (PNode R P))
    (cps : List (CompiledPattern R B)) (hc : compileAll branches = .ok cps) :
    (dispatch conv branches children
        = .ok (.noMatch (children.map PNode.tag)) ↔
      ∀ cp ∈ cps, matchesB cp (children.map PNode.tag) = false) ∧
    ((∀ cp ∈ cps, matchesB cp (children.map PNode.tag) = false) →
      ∀ (E2 V2 : Type) (conv2 : R → PNode R P → Except E2 V2),
        dispatch conv2 branches children
          = .ok (.noMatch (children.map PNode.tag))) := by
  have hkey : ∀ (E2 V2 : Type) (conv2 : R → PNode R P → Except E2 V2),
      (∀ cp ∈ cps, matchesB cp (children.map PNode.tag) = false) →
      dispatch conv2 branches children
        = .ok (.noMatch (children.map PNode.tag)) := by
    intro E2 V2 conv2 hall
    have hsel : selectBranch cps (children.map PNode.tag) = none :=
      (selectBranch_eq_none_iff _ cps).mpr hall
    simp [dispatch, hc, hsel]
  constructor
  · constructor
    · intro hdisp
      cases hsel : selectBranch cps (children.map PNode.tag) with
      | none => exact (selectBranch_eq_none_iff _ cps).mp hsel
      | some ic =>
        rw [dispatch, hc] at hdisp
        simp only [hsel] at hdisp
        simp at hdisp
    · intro hall
      exact hkey E V conv hall
  · intro hall E2 V2 conv2
    exact hkey E2 V2 conv2 hall

/-- Witness for C8: the branch `[A(10)]` against one child tagged `1 ≠ 0`
yields the no-match outcome carrying the observed tags. -/
theorem c8_no_match_iff_witness :
    (compileAll ([[PatternItem.single 0 10]] :
        List (List (PatternItem Nat Nat)))
      = .ok [(⟨[(0, 10)], none, []⟩ : CompiledPattern Nat Nat)]) ∧
    dispatch (fun r nd => (Except.ok (r + nd.payload) : Except Nat Nat))
        [[PatternItem.single 0 10]] [(⟨1, 7⟩ : PNode Nat Nat)]
      = .ok (.noMatch ([(⟨1, 7⟩ : PNode Nat Nat)].map PNode.tag)) :=
  ⟨rfl,
    (c8_no_match_iff (fun r nd => (Except.ok (r + nd.payload) : Except Nat Nat))
        [[PatternItem.single 0 10]] [(⟨1, 7⟩ : PNode Nat Nat)]
        [(⟨[(0, 10)], none, []⟩ : CompiledPattern Nat Nat)] rfl).2
      (by decide) Nat Nat
      (fun r nd => (Except.ok (r + nd.payload) : Except Nat Nat))⟩

/-- Witness for C4: scenario-1 input — pattern `[A(10), B(11).., C(12)]`
against children tagged `[A, B, B, C]`. -/
theorem c4_consumption_order_and_binders_witness :
    matchesB (⟨[(0, 10)], some (1, 11), [(2, 12)]⟩ : CompiledPattern Nat Nat)
      (([⟨0, 100⟩, ⟨1, 101⟩, ⟨1, 102⟩, ⟨2, 103⟩] :
        List (PNode Nat Nat)).map PNode.tag) = true ∧
    extractB (fun r nd => (Except.ok (r * 1000 + nd.payload) : Except Nat Nat))
        (⟨[(0, 10)], some (1, 11), [(2, 12)]⟩ : CompiledPattern Nat Nat)
        [⟨0, 100⟩, ⟨1, 101⟩, ⟨1, 102⟩, ⟨2, 103⟩] =
      some (callPlan
          (⟨[(0, 10)], some (1, 11), [(2, 12)]⟩ : CompiledPattern Nat Nat)
          [⟨0, 100⟩, ⟨1, 101⟩, ⟨1, 102⟩, ⟨2, 103⟩],
        Except.ok (assembleBinding
          (⟨[(0, 10)], some (1, 11), [(2, 12)]⟩ : CompiledPattern Nat Nat)
          ((callPlan
              (⟨[(0, 10)], some (1, 11), [(2, 12)]⟩ : CompiledPattern Nat Nat)
              [⟨0, 100⟩, ⟨1, 101⟩, ⟨1, 102⟩, ⟨2, 103⟩]).map
            (fun c => c.1 * 1000 + c.2.payload)))) :=
  ⟨by decide,
    (c4_consumption_order_and_binders (fun r nd => r * 1000 + nd.payload)
      (⟨[(0, 10)], some (1, 11), [(2, 12)]⟩ : CompiledPattern Nat Nat)
      [⟨0, 100⟩, ⟨1, 101⟩, ⟨1, 102⟩, ⟨2, 103⟩] (by decide)).1⟩

/-- Witness for C6: scenario-5 input — the conversion for rule `B = 1` fails
on the second `B`-tagged child, the fourth planned call; dispatch returns
exactly that error after exactly four calls. -/
theorem c6_fail_fast_witness :
    ((callPlan (⟨[(0, 10)], some (1, 11), [(2, 12)]⟩ : CompiledPattern Nat Nat)
        [⟨0, 100⟩, ⟨1, 101⟩, ⟨1, 102⟩, ⟨2, 103⟩])[3]?
      = some (1, (⟨1, 102⟩ : PNode Nat Nat))) ∧
    ((fun r (nd : PNode Nat Nat) =>
        if nd.payload = 102 then (Except.error 7 : Except Nat Nat)
        else Except.ok (r + nd.payload)) 1 (⟨1, 102⟩ : PNode Nat Nat)
      = .error 7) ∧
    dispatch (fun r (nd : PNode Nat Nat) =>
        if nd.payload = 102 then (Except.error 7 : Except Nat Nat)
        else Except.ok (r + nd.payload))
        [[PatternItem.single 0 10, PatternItem.multiple 1 11,
          PatternItem.single 2 12]]
        [⟨0, 100⟩, ⟨1, 101⟩, ⟨1, 102⟩, ⟨2, 103⟩]
      = .ok (.matched 0 (some
          ((callPlan (⟨[(0, 10)], some (1, 11), [(2, 12)]⟩ :
              CompiledPattern Nat Nat)
            [⟨0, 100⟩, ⟨1, 101⟩, ⟨1, 102⟩, ⟨2, 103⟩]).take 4, .error 7))) :=
  ⟨by decide, rfl,
    (c6_fail_fast (fun r (nd : PNode Nat Nat) =>
        if nd.payload = 102 then (Except.error 7 : Except Nat Nat)
        else Except.ok (r + nd.payload))
      [[PatternItem.single 0 10, PatternItem.multiple 1 11,
        PatternItem.single 2 12]]
      [⟨0, 100⟩, ⟨1, 101⟩, ⟨1, 102⟩, ⟨2, 103⟩] [] []
      (⟨[(0, 10)], some (1, 11), [(2, 12)]⟩ : CompiledPattern Nat Nat)
      rfl (by decide) (by intro c hc; simp at hc)
      3 1 (⟨1, 102⟩ : PNode Nat Nat) 7 (by decide) rfl
      (by
        intro m hm' c hc
        have hmem : c ∈ (callPlan (⟨[(0, 10)], some (1, 11), [(2, 12)]⟩ :
            CompiledPattern Nat Nat)
            [⟨0, 100⟩, ⟨1, 101⟩, ⟨1, 102⟩, ⟨2, 103⟩]).take 3 := by
          refine List.mem_iff_getElem?.mpr ⟨m, ?_⟩
          rw [List.getElem?_take_of_lt hm']
          exact hc
        have hp : c.2.payload ≠ 102 := by fin_cases hmem <;> decide
        exact ⟨c.1 + c.2.payload, by simp [hp]⟩)).2⟩

/-- Witness for C10: a two-item fixed pattern against two matching children —
the guard holds, so extraction is panic-free. -/
theorem c10_extract_unwraps_safe_witness :
    matchesB (⟨[(0, 10), (1, 11)], none, []⟩ : CompiledPattern Nat Nat)
      (([⟨0, 1⟩, ⟨1, 2⟩] : List (PNode Nat Nat)).map PNode.tag) = true ∧
    (extractB (fun r nd => (Except.ok (r + nd.payload) : Except Nat Nat))
      (⟨[(0, 10), (1, 11)], none, []⟩ : CompiledPattern Nat Nat)
      [⟨0, 1⟩, ⟨1, 2⟩]).isSome = true :=
  ⟨by decide,
    (c10_extract_unwraps_safe
      (fun r nd => (Except.ok (r + nd.payload) : Except Nat Nat))
      (⟨[(0, 10), (1, 11)], none, []⟩ : CompiledPattern Nat Nat)
      [⟨0, 1⟩, ⟨1, 2⟩] (by decide)).1⟩

/-- C3, observed divergence: for the branch `[B(10).., C(11), D(12)]`
(rules `B = 1, C = 2, D = 3`), the children tagged `[D, C]` — the reverse of
the declared suffix order — match, and the extraction then invokes the
conversion function of rule `D = 3` on the child tagged `C = 2` (first trace
entry) and that of rule `C = 2` on the child tagged `D = 3`; meanwhile the
children tagged `[C, D]`, in declared order, do not match at all.  So a
Fixed suffix item's converter does not receive a child of its declared
rule tag whenever the suffix has two items with distinct rules. -/
theorem c3_suffix_conversion_mismatch :
    (dispatch (fun r nd => (Except.ok (r, nd.tag) : Except Nat (Nat × Nat)))
        [[PatternItem.multiple 1 10, PatternItem.single 2 11,
          PatternItem.single 3 12]]
        [(⟨3, 100⟩ : PNode Nat Nat), ⟨2, 101⟩]
      = .ok (.matched 0 (some (
          [(3, ⟨2, 101⟩), (2, ⟨3, 100⟩)],
          Except.ok [(12, BValue.scalar (3, 2)), (11, BValue.scalar (2, 3)),
            (10, BValue.seq [])])))) ∧
    ((3, (⟨2, 101⟩ : PNode Nat Nat)) ∈
        ([(3, (⟨2, 101⟩ : PNode Nat Nat)), (2, ⟨3, 100⟩)] :
          List (Nat × PNode Nat Nat)) ∧
      (3 : Nat) ≠ (PNode.mk (2 : Nat) (101 : Nat)).tag) ∧
    (dispatch (fun r nd => (Except.ok (r, nd.tag) : Except Nat (Nat × Nat)))
        [[PatternItem.multiple 1 10, PatternItem.single 2 11,
          PatternItem.single 3 12]]
        [(⟨2, 100⟩ : PNode Nat Nat), ⟨3, 101⟩]
      = .ok (.noMatch [2, 3])) :=
  ⟨rfl, ⟨by decide, by decide⟩, rfl⟩

end PestConsume
